import Mathlib

/-!
Verification of the EdgeVision native processing layer
(`edge_processor.cpp` / `edge_processor.h` / `native-lib.cpp`).

The shallow embedding models:
* `cv::Mat` single-channel buffers owned by the processor as `Buf`
  (rows, cols, data bytes, plus an allocation generation `gen` that models
  the identity of the backing storage: `Mat::create` hands out a fresh
  generation, overwriting in place keeps it);
* the `EdgeProcessor` fields as `EPState`;
* `EdgeProcessor::yuv420ToGray` / `processGrayscale` / `processCanny` /
  `matToByteArray` as state-passing functions; the `memcpy` of
  `width*height` bytes is in bounds only when the input frame is long
  enough, so the functions return `Option` — `none` models the
  out-of-bounds read (C undefined behavior) on a too-short frame;
* the JNI entry points of `native-lib.cpp` as functions over the global
  processor (an `Option EPState`, `none` before first use) returning a
  `JniResult`: `ok bytes`, `nullResult` (the `return nullptr` paths) or
  `undefinedBehavior` (the uncheckable out-of-bounds `memcpy`).

`cv::GaussianBlur` and `cv::Canny` are OpenCV library code, not part of
this repository, so they are modelled from the spec (see `blurModel` and
`cannyModel` below). Bytes are `Nat` values; machine `int` dimensions are
`Int` at the JNI boundary and, after the positivity check, `Nat` inside
the processor.
-/

namespace EdgeVision

/-- A byte value (uint8). -/
abbrev Byte := Nat

/-- Shallow embedding of a single-channel `cv::Mat` owned by the processor.
`gen` models the identity of the backing allocation: a reallocation by
`Mat::create` yields a fresh generation, writing in place keeps it. -/
structure Buf where
  rows : Nat
  cols : Nat
  data : List Byte
  gen : Nat
deriving DecidableEq

/-- A default-constructed `cv::Mat`: 0x0, no data. -/
def Buf.empty : Buf := ⟨0, 0, [], 0⟩

/-- The fields of `edgevision::EdgeProcessor` (edge_processor.h, lines 47-57).
`nextGen` is the model's allocation counter, used to hand out fresh buffer
generations. -/
structure EPState where
  cannyThreshold1 : Rat
  cannyThreshold2 : Rat
  cannyApertureSize : Nat
  grayBuffer : Buf
  blurredBuffer : Buf
  edgesBuffer : Buf
  lastWidth : Nat
  lastHeight : Nat
  nextGen : Nat
deriving DecidableEq

/-- `EdgeProcessor::EdgeProcessor()` (edge_processor.cpp, lines 10-18):
thresholds 50.0 / 150.0, aperture 3, zero last-seen dimensions, empty
buffers. -/
def initState : EPState :=
  { cannyThreshold1 := 50
    cannyThreshold2 := 150
    cannyApertureSize := 3
    grayBuffer := Buf.empty
    blurredBuffer := Buf.empty
    edgesBuffer := Buf.empty
    lastWidth := 0
    lastHeight := 0
    nextGen := 1 }

/-- `EdgeProcessor::setCannyThresholds` (edge_processor.cpp, lines 24-27). -/
def setCannyThresholds (s : EPState) (threshold1 threshold2 : Rat) : EPState :=
  { s with cannyThreshold1 := threshold1, cannyThreshold2 := threshold2 }

/-- `EdgeProcessor::yuv420ToGray` (edge_processor.cpp, lines 29-41):
reallocate the gray buffer when its dimensions differ from the request
(also recording lastWidth/lastHeight), then `memcpy` the first
`width*height` bytes of the frame into it.  The guard models the
`memcpy` read staying inside the caller's frame; a shorter frame is an
out-of-bounds read (undefined behavior), modelled as `none`. -/
def yuv420ToGray (s : EPState) (yuvData : List Byte) (width height : Nat) :
    Option (Buf × EPState) :=
  if width * height ≤ yuvData.length then
    let s1 : EPState :=
      if s.grayBuffer.cols ≠ width ∨ s.grayBuffer.rows ≠ height then
        { s with
          grayBuffer := ⟨height, width, List.replicate (width * height) 0, s.nextGen⟩
          lastWidth := width
          lastHeight := height
          nextGen := s.nextGen + 1 }
      else s
    let buf : Buf := { s1.grayBuffer with data := yuvData.take (width * height) }
    some (buf, { s1 with grayBuffer := buf })
  else none

/-- `EdgeProcessor::processGrayscale` (edge_processor.cpp, lines 54-56):
delegates to `yuv420ToGray`. -/
def processGrayscale (s : EPState) (yuvData : List Byte) (width height : Nat) :
    Option (Buf × EPState) :=
  yuv420ToGray s yuvData width height

/-- BORDER_REFLECT_101 coordinate reflection (OpenCV's default border mode)
for a 1-D extent `n`. -/
def refl101 (n : Nat) (i : Int) : Nat :=
  if n ≤ 1 then 0
  else
    let m : Int := 2 * (n : Int) - 2
    let j : Int := ((i % m) + m) % m
    if j < (n : Int) then j.toNat else (m - j).toNat

/-- Read pixel (x, y) of a `w`x`h` row-major image with reflected borders. -/
def getPix (w h : Nat) (img : List Byte) (x y : Int) : Nat :=
  img.getD (refl101 h y * w + refl101 w x) 0

/-- Modelled from the spec: the 1-D 5-tap kernel of the 5x5 Gaussian blur
with sigma 1.5 (`cv::GaussianBlur`, absent from src/), as integer weights
summing to 100. -/
def gaussK : List (Int × Nat) := [(-2, 12), (-1, 23), (0, 30), (1, 23), (2, 12)]

/-- Modelled from the spec: the blurred value at (x, y) — a 5x5 separable
Gaussian-weighted average with reflected borders. -/
def blurAt (w h : Nat) (img : List Byte) (x y : Int) : Nat :=
  (gaussK.foldl
    (fun acc dy =>
      acc + dy.2 *
        gaussK.foldl (fun acc2 dx => acc2 + dx.2 * getPix w h img (x + dx.1) (y + dy.1)) 0)
    0) / 10000

/-- Modelled from the spec: `cv::GaussianBlur(gray, blurred, Size(5,5), 1.5)`
(edge_processor.cpp line 73 delegates to OpenCV, which is not in src/). -/
def blurModel (w h : Nat) (img : List Byte) : List Byte :=
  (List.range (w * h)).map fun p =>
    blurAt w h img ((p % w : Nat) : Int) ((p / w : Nat) : Int)

/-- Horizontal 3x3 Sobel response (aperture size 3) at (x, y). -/
def sobelGx (w h : Nat) (img : List Byte) (x y : Int) : Int :=
  ((getPix w h img (x + 1) (y - 1) : Int) + 2 * (getPix w h img (x + 1) y : Int)
      + (getPix w h img (x + 1) (y + 1) : Int))
    - ((getPix w h img (x - 1) (y - 1) : Int) + 2 * (getPix w h img (x - 1) y : Int)
      + (getPix w h img (x - 1) (y + 1) : Int))

/-- Vertical 3x3 Sobel response (aperture size 3) at (x, y). -/
def sobelGy (w h : Nat) (img : List Byte) (x y : Int) : Int :=
  ((getPix w h img (x - 1) (y + 1) : Int) + 2 * (getPix w h img x (y + 1) : Int)
      + (getPix w h img (x + 1) (y + 1) : Int))
    - ((getPix w h img (x - 1) (y - 1) : Int) + 2 * (getPix w h img x (y - 1) : Int)
      + (getPix w h img (x + 1) (y - 1) : Int))

/-- L1 gradient magnitude |gx| + |gy| at flat pixel index `p`. -/
def gradMag (w h : Nat) (img : List Byte) (p : Nat) : Nat :=
  (sobelGx w h img ((p % w : Nat) : Int) ((p / w : Nat) : Int)).natAbs
    + (sobelGy w h img ((p % w : Nat) : Int) ((p / w : Nat) : Int)).natAbs

/-- Gradient magnitudes of every pixel, row-major. -/
def magList (w h : Nat) (img : List Byte) : List Nat :=
  (List.range (w * h)).map (gradMag w h img)

/-- Pixels whose gradient magnitude exceeds threshold `t`. -/
def threshList (l : List Nat) (t : Rat) : List Bool :=
  l.map fun (m : Nat) => decide (t < (m : Rat))

/-- The 8-neighborhood of flat pixel index `p` inside a `w`x`h` image. -/
def nbrs (w h p : Nat) : List Nat :=
  let x : Int := ((p % w : Nat) : Int)
  let y : Int := ((p / w : Nat) : Int)
  ([(-1, -1), (0, -1), (1, -1), (-1, 0), (1, 0), (-1, 1), (0, 1), (1, 1)] :
      List (Int × Int)).filterMap fun d =>
    let x2 := x + d.1
    let y2 := y + d.2
    if 0 ≤ x2 ∧ x2 < (w : Int) ∧ 0 ≤ y2 ∧ y2 < (h : Int) then
      some (y2.toNat * w + x2.toNat)
    else none

/-- One round of hysteresis propagation: a pixel becomes an edge if it
already is one, or if it is a candidate (magnitude above the low
threshold) adjacent to a current edge pixel. -/
def hystStep (w h : Nat) (cand : List Bool) (cur : List Bool) : List Bool :=
  (List.range (w * h)).map fun p =>
    cur.getD p false || (cand.getD p false && (nbrs w h p).any fun q => cur.getD q false)

/-- Iterated hysteresis propagation. -/
def hystAux (w h : Nat) (cand : List Bool) : Nat → List Bool → List Bool
  | 0, cur => cur
  | n + 1, cur => hystAux w h cand n (hystStep w h cand cur)

/-- Modelled from the spec: the edge set of Canny's two-threshold
hysteresis — pixels above the high threshold are strong edges, and
candidates above the low threshold joined to a strong edge through the
8-neighborhood become edges; `w*h` propagation rounds reach the fixpoint. -/
def edgeSet (w h : Nat) (img : List Byte) (t1 t2 : Rat) : List Bool :=
  hystAux w h (threshList (magList w h img) t1) (w * h)
    (threshList (magList w h img) t2)

/-- Modelled from the spec: `cv::Canny(blurred, edges, t1, t2, 3)`
(edge_processor.cpp line 76 delegates to OpenCV, which is not in src/):
a binary map with 255 on edge pixels and 0 elsewhere. -/
def cannyModel (w h : Nat) (img : List Byte) (t1 t2 : Rat) : List Byte :=
  (List.range (w * h)).map fun p =>
    if (edgeSet w h img t1 t2).getD p false then 255 else 0

/-- `EdgeProcessor::processCanny` (edge_processor.cpp, lines 58-79):
gray conversion (reusing the gray buffer), then conditional reallocation
of the blur and edge buffers, then Gaussian blur into the blur buffer and
Canny into the edge buffer, returning the edge buffer. -/
def processCanny (s : EPState) (yuvData : List Byte) (width height : Nat) :
    Option (Buf × EPState) :=
  match yuv420ToGray s yuvData width height with
  | none => none
  | some (grayMat, s1) =>
    let s2 : EPState :=
      if s1.blurredBuffer.cols ≠ width ∨ s1.blurredBuffer.rows ≠ height then
        { s1 with
          blurredBuffer := ⟨height, width, List.replicate (width * height) 0, s1.nextGen⟩
          nextGen := s1.nextGen + 1 }
      else s1
    let s3 : EPState :=
      if s2.edgesBuffer.cols ≠ width ∨ s2.edgesBuffer.rows ≠ height then
        { s2 with
          edgesBuffer := ⟨height, width, List.replicate (width * height) 0, s2.nextGen⟩
          nextGen := s2.nextGen + 1 }
      else s2
    let blurred : Buf := { s3.blurredBuffer with data := blurModel width height grayMat.data }
    let edges : Buf :=
      { s3.edgesBuffer with
        data := cannyModel width height blurred.data s3.cannyThreshold1 s3.cannyThreshold2 }
    some (edges, { s3 with blurredBuffer := blurred, edgesBuffer := edges })

/-- A `cv::Mat` viewed with an explicit row stride, for
`EdgeProcessor::matToByteArray`: row `i` starts at byte offset `i * step`.
`step = cols` means the rows are stored contiguously. -/
structure MatView where
  rows : Nat
  cols : Nat
  step : Nat
  data : List Byte

/-- Row `i` of the viewed matrix (`mat.ptr(i)`, `cols` bytes). -/
def MatView.row (m : MatView) (i : Nat) : List Byte :=
  (m.data.drop (i * m.step)).take m.cols

/-- `cv::Mat::isContinuous` for a single-channel 2-D matrix: true when
there is at most one row or the stride equals the row width. -/
def MatView.isContinuous (m : MatView) : Bool :=
  decide (m.rows ≤ 1 ∨ m.step = m.cols)

/-- `EdgeProcessor::matToByteArray` (edge_processor.cpp, lines 81-93) on a
strided view: contiguous storage is copied wholesale
(`assign(data, data + total*elemSize)`), otherwise row by row. -/
def matToByteArrayV (m : MatView) : List Byte :=
  if m.isContinuous then m.data.take (m.rows * m.cols)
  else (List.range m.rows).foldl (fun acc i => acc ++ m.row i) []

/-- `EdgeProcessor::matToByteArray` on a processor-owned buffer, which is
always stored contiguously (it was produced by `Mat::create`). -/
def matToByteArray (b : Buf) : List Byte :=
  b.data.take (b.rows * b.cols)

/-- Result of a JNI entry point: a returned byte array, the `nullptr`
return, or an out-of-bounds read the C++ cannot recover from (undefined
behavior — no null is returned and no exception is thrown). -/
inductive JniResult where
  | ok (bytes : List Byte)
  | nullResult
  | undefinedBehavior
deriving DecidableEq

/-- `ensureEdgeProcessorInitialized` (native-lib.cpp, lines 17-21): the
global processor pointer, allocated on first use. -/
def ensureEdgeProcessorInitialized (g : Option EPState) : EPState :=
  g.getD initState

/-- `Java_..._processFrameCanny` (native-lib.cpp, lines 40-112): width or
height at most zero returns null; otherwise the processor's Canny
pipeline runs and the edge matrix is flattened and returned.  A frame too
short for `width*height` is never checked: the `memcpy` inside
`yuv420ToGray` reads out of bounds. -/
def processFrameCanny (g : Option EPState) (inputData : List Byte) (width height : Int) :
    JniResult × Option EPState :=
  let s := ensureEdgeProcessorInitialized g
  if width ≤ 0 ∨ height ≤ 0 then (JniResult.nullResult, some s)
  else
    match processCanny s inputData width.toNat height.toNat with
    | none => (JniResult.undefinedBehavior, some s)
    | some (edges, s1) => (JniResult.ok (matToByteArray edges), some s1)

/-- `Java_..._processFrameGrayscale` (native-lib.cpp, lines 117-189): same
boundary checks around `processGrayscale`. -/
def processFrameGrayscale (g : Option EPState) (inputData : List Byte) (width height : Int) :
    JniResult × Option EPState :=
  let s := ensureEdgeProcessorInitialized g
  if width ≤ 0 ∨ height ≤ 0 then (JniResult.nullResult, some s)
  else
    match processGrayscale s inputData width.toNat height.toNat with
    | none => (JniResult.undefinedBehavior, some s)
    | some (gray, s1) => (JniResult.ok (matToByteArray gray), some s1)

/-- `Java_..._processFrameToBitmap` (native-lib.cpp, lines 194-208): an
unimplemented stub that logs and returns null, touching nothing. -/
def processFrameToBitmap (g : Option EPState) (inputData : List Byte)
    (width height processingType : Int) : Option (List Byte) × Option EPState :=
  (none, g)

/-- Allocation-counter sanity: every buffer's generation is older than the
next generation to be handed out.  Holds for `initState` and is preserved
by every operation; it lets buffer identity be read off the generations. -/
def genWF (s : EPState) : Prop :=
  s.grayBuffer.gen < s.nextGen ∧ s.blurredBuffer.gen < s.nextGen ∧
    s.edgesBuffer.gen < s.nextGen

/-- Number of edge (255) bytes in a flat image. -/
def count255 (l : List Byte) : Nat :=
  l.count 255

/-- Pointwise order on boolean pixel masks: every pixel set in `a` is set
in `b`. -/
def bleq (a b : List Bool) : Prop :=
  ∀ p : Nat, a.getD p false = true → b.getD p false = true

/-! ### Helper lemmas -/

theorem mismatchOfNot (a b c d : Nat) (h : ¬(a = b ∧ c = d)) : a ≠ b ∨ c ≠ d := by
  tauto

theorem notMismatch (a b c d : Nat) (h1 : a = b) (h2 : c = d) : ¬(a ≠ b ∨ c ≠ d) := by
  simp [h1, h2]

theorem blurModel_length (w h : Nat) (img : List Byte) :
    (blurModel w h img).length = w * h := by
  simp [blurModel]

theorem cannyModel_length (w h : Nat) (img : List Byte) (t1 t2 : Rat) :
    (cannyModel w h img t1 t2).length = w * h := by
  simp [cannyModel]

theorem yuv420ToGray_realloc (s : EPState) (f : List Byte) (w h : Nat)
    (hlen : w * h ≤ f.length)
    (hdim : s.grayBuffer.cols ≠ w ∨ s.grayBuffer.rows ≠ h) :
    yuv420ToGray s f w h =
      some (⟨h, w, f.take (w * h), s.nextGen⟩,
        { s with
          grayBuffer := ⟨h, w, f.take (w * h), s.nextGen⟩
          lastWidth := w
          lastHeight := h
          nextGen := s.nextGen + 1 }) := by
  simp [yuv420ToGray, hlen, hdim]

theorem yuv420ToGray_reuse (s : EPState) (f : List Byte) (w h : Nat)
    (hlen : w * h ≤ f.length)
    (hcols : s.grayBuffer.cols = w) (hrows : s.grayBuffer.rows = h) :
    yuv420ToGray s f w h =
      some ({ s.grayBuffer with data := f.take (w * h) },
        { s with grayBuffer := { s.grayBuffer with data := f.take (w * h) } }) := by
  simp [yuv420ToGray, hlen, hcols, hrows]

theorem yuv420ToGray_none (s : EPState) (f : List Byte) (w h : Nat)
    (hlen : f.length < w * h) :
    yuv420ToGray s f w h = none := by
  simp [yuv420ToGray]
  omega

/-! ### C1 -/

/-- C1: whenever `width*height` does not exceed the frame length,
`toGray` (`yuv420ToGray`, and `processGrayscale` which delegates to it)
returns a buffer holding exactly `width*height` bytes, byte for byte the
first `width*height` bytes of the input frame. -/
theorem toGray_identity_copy (s : EPState) (frame : List Byte) (w h : Nat)
    (hlen : w * h ≤ frame.length) :
    processGrayscale s frame w h = yuv420ToGray s frame w h ∧
    ∃ buf s1, yuv420ToGray s frame w h = some (buf, s1) ∧
      buf.data.length = w * h ∧ buf.data = List.take (w * h) frame := by
  refine ⟨rfl, ?_⟩
  by_cases hdim : s.grayBuffer.cols ≠ w ∨ s.grayBuffer.rows ≠ h
  · exact ⟨_, _, yuv420ToGray_realloc s frame w h hlen hdim,
      by simp [List.length_take, Nat.min_eq_left hlen], rfl⟩
  · push_neg at hdim
    exact ⟨_, _, yuv420ToGray_reuse s frame w h hlen hdim.1 hdim.2,
      by simp [List.length_take, Nat.min_eq_left hlen], rfl⟩

/-- Witness for C1: a 2x2 request on a 6-byte frame. -/
theorem toGray_identity_copy_witness :
    2 * 2 ≤ ([10, 20, 30, 40, 50, 60] : List Byte).length ∧
    (processGrayscale initState [10, 20, 30, 40, 50, 60] 2 2 =
        yuv420ToGray initState [10, 20, 30, 40, 50, 60] 2 2 ∧
      ∃ buf s1, yuv420ToGray initState [10, 20, 30, 40, 50, 60] 2 2 = some (buf, s1) ∧
        buf.data.length = 2 * 2 ∧ buf.data = List.take (2 * 2) [10, 20, 30, 40, 50, 60]) :=
  ⟨by decide, toGray_identity_copy initState [10, 20, 30, 40, 50, 60] 2 2 (by decide)⟩


theorem processCanny_spec (s : EPState) (f : List Byte) (w h : Nat)
    (hlen : w * h ≤ f.length) :
    ∃ buf s1,
      processCanny s f w h = some (buf, s1) ∧
      buf.data =
        cannyModel w h (blurModel w h (List.take (w * h) f))
          s.cannyThreshold1 s.cannyThreshold2 ∧
      buf.cols = w ∧
      buf.rows = h ∧
      s1.edgesBuffer = buf ∧
      s1.cannyThreshold1 = s.cannyThreshold1 ∧
      s1.cannyThreshold2 = s.cannyThreshold2 ∧
      s1.cannyApertureSize = s.cannyApertureSize ∧
      s1.grayBuffer.cols = w ∧
      s1.grayBuffer.rows = h ∧
      s1.grayBuffer.data = List.take (w * h) f ∧
      s1.blurredBuffer.cols = w ∧
      s1.blurredBuffer.rows = h ∧
      s1.blurredBuffer.data = blurModel w h (List.take (w * h) f) ∧
      (genWF s →
        genWF s1 ∧
        (s1.grayBuffer.gen = s.grayBuffer.gen ↔
          s.grayBuffer.cols = w ∧ s.grayBuffer.rows = h) ∧
        (s1.blurredBuffer.gen = s.blurredBuffer.gen ↔
          s.blurredBuffer.cols = w ∧ s.blurredBuffer.rows = h) ∧
        (s1.edgesBuffer.gen = s.edgesBuffer.gen ↔
          s.edgesBuffer.cols = w ∧ s.edgesBuffer.rows = h)) := by
  by_cases hg : s.grayBuffer.cols = w ∧ s.grayBuffer.rows = h
  all_goals by_cases hb : s.blurredBuffer.cols = w ∧ s.blurredBuffer.rows = h
  all_goals by_cases he : s.edgesBuffer.cols = w ∧ s.edgesBuffer.rows = h
  case _ =>
    simp only [processCanny, yuv420ToGray_reuse s f w h hlen hg.1 hg.2]
    rw [if_neg (notMismatch _ _ _ _ hb.1 hb.2), if_neg (notMismatch _ _ _ _ he.1 he.2)]
    refine ⟨_, _, rfl, rfl, he.1, he.2, rfl, rfl, rfl, rfl, hg.1, hg.2, rfl, hb.1, hb.2, rfl, ?_⟩
    intro hWF
    obtain ⟨h1, h2, h3⟩ := hWF
    unfold genWF
    dsimp only
    exact ⟨⟨by omega, by omega, by omega⟩,
      iff_of_true rfl ⟨hg.1, hg.2⟩,
      iff_of_true rfl ⟨hb.1, hb.2⟩,
      iff_of_true rfl ⟨he.1, he.2⟩⟩
  case _ =>
    simp only [processCanny, yuv420ToGray_reuse s f w h hlen hg.1 hg.2]
    rw [if_neg (notMismatch _ _ _ _ hb.1 hb.2), if_pos (mismatchOfNot _ _ _ _ he)]
    refine ⟨_, _, rfl, rfl, rfl, rfl, rfl, rfl, rfl, rfl, hg.1, hg.2, rfl, hb.1, hb.2, rfl, ?_⟩
    intro hWF
    obtain ⟨h1, h2, h3⟩ := hWF
    unfold genWF
    dsimp only
    exact ⟨⟨by omega, by omega, by omega⟩,
      iff_of_true rfl ⟨hg.1, hg.2⟩,
      iff_of_true rfl ⟨hb.1, hb.2⟩,
      iff_of_false (by omega) he⟩
  case _ =>
    simp only [processCanny, yuv420ToGray_reuse s f w h hlen hg.1 hg.2]
    rw [if_pos (mismatchOfNot _ _ _ _ hb), if_neg (notMismatch _ _ _ _ he.1 he.2)]
    refine ⟨_, _, rfl, rfl, he.1, he.2, rfl, rfl, rfl, rfl, hg.1, hg.2, rfl, rfl, rfl, rfl, ?_⟩
    intro hWF
    obtain ⟨h1, h2, h3⟩ := hWF
    unfold genWF
    dsimp only
    exact ⟨⟨by omega, by omega, by omega⟩,
      iff_of_true rfl ⟨hg.1, hg.2⟩,
      iff_of_false (by omega) hb,
      iff_of_true rfl ⟨he.1, he.2⟩⟩
  case _ =>
    simp only [processCanny, yuv420ToGray_reuse s f w h hlen hg.1 hg.2]
    rw [if_pos (mismatchOfNot _ _ _ _ hb), if_pos (mismatchOfNot _ _ _ _ he)]
    refine ⟨_, _, rfl, rfl, rfl, rfl, rfl, rfl, rfl, rfl, hg.1, hg.2, rfl, rfl, rfl, rfl, ?_⟩
    intro hWF
    obtain ⟨h1, h2, h3⟩ := hWF
    unfold genWF
    dsimp only
    exact ⟨⟨by omega, by omega, by omega⟩,
      iff_of_true rfl ⟨hg.1, hg.2⟩,
      iff_of_false (by omega) hb,
      iff_of_false (by omega) he⟩
  case _ =>
    simp only [processCanny,
      yuv420ToGray_realloc s f w h hlen (mismatchOfNot _ _ _ _ hg)]
    rw [if_neg (notMismatch _ _ _ _ hb.1 hb.2), if_neg (notMismatch _ _ _ _ he.1 he.2)]
    refine ⟨_, _, rfl, rfl, he.1, he.2, rfl, rfl, rfl, rfl, rfl, rfl, rfl, hb.1, hb.2, rfl, ?_⟩
    intro hWF
    obtain ⟨h1, h2, h3⟩ := hWF
    unfold genWF
    dsimp only
    exact ⟨⟨by omega, by omega, by omega⟩,
      iff_of_false (by omega) hg,
      iff_of_true rfl ⟨hb.1, hb.2⟩,
      iff_of_true rfl ⟨he.1, he.2⟩⟩
  case _ =>
    simp only [processCanny,
      yuv420ToGray_realloc s f w h hlen (mismatchOfNot _ _ _ _ hg)]
    rw [if_neg (notMismatch _ _ _ _ hb.1 hb.2), if_pos (mismatchOfNot _ _ _ _ he)]
    refine ⟨_, _, rfl, rfl, rfl, rfl, rfl, rfl, rfl, rfl, rfl, rfl, rfl, hb.1, hb.2, rfl, ?_⟩
    intro hWF
    obtain ⟨h1, h2, h3⟩ := hWF
    unfold genWF
    dsimp only
    exact ⟨⟨by omega, by omega, by omega⟩,
      iff_of_false (by omega) hg,
      iff_of_true rfl ⟨hb.1, hb.2⟩,
      iff_of_false (by omega) he⟩
  case _ =>
    simp only [processCanny,
      yuv420ToGray_realloc s f w h hlen (mismatchOfNot _ _ _ _ hg)]
    rw [if_pos (mismatchOfNot _ _ _ _ hb), if_neg (notMismatch _ _ _ _ he.1 he.2)]
    refine ⟨_, _, rfl, rfl, he.1, he.2, rfl, rfl, rfl, rfl, rfl, rfl, rfl, rfl, rfl, rfl, ?_⟩
    intro hWF
    obtain ⟨h1, h2, h3⟩ := hWF
    unfold genWF
    dsimp only
    exact ⟨⟨by omega, by omega, by omega⟩,
      iff_of_false (by omega) hg,
      iff_of_false (by omega) hb,
      iff_of_true rfl ⟨he.1, he.2⟩⟩
  case _ =>
    simp only [processCanny,
      yuv420ToGray_realloc s f w h hlen (mismatchOfNot _ _ _ _ hg)]
    rw [if_pos (mismatchOfNot _ _ _ _ hb), if_pos (mismatchOfNot _ _ _ _ he)]
    refine ⟨_, _, rfl, rfl, rfl, rfl, rfl, rfl, rfl, rfl, rfl, rfl, rfl, rfl, rfl, rfl, ?_⟩
    intro hWF
    obtain ⟨h1, h2, h3⟩ := hWF
    unfold genWF
    dsimp only
    exact ⟨⟨by omega, by omega, by omega⟩,
      iff_of_false (by omega) hg,
      iff_of_false (by omega) hb,
      iff_of_false (by omega) he⟩

/-! ### C2 -/

/-- C2: on any call, each internal buffer keeps its backing storage (its
generation) exactly when its current dimensions equal the requested ones,
and in every case it ends with the requested dimensions and exactly
`width*height` bytes — reallocated buffers to the new exact size, matching
buffers overwritten in place.  `genWF` is the allocator sanity invariant
making generations meaningful. -/
theorem buffer_realloc_iff (s : EPState) (frame : List Byte) (w h : Nat)
    (hWF : genWF s) (hlen : w * h ≤ frame.length) :
    (∃ buf s1, processGrayscale s frame w h = some (buf, s1) ∧
      (s1.grayBuffer.gen = s.grayBuffer.gen ↔
        s.grayBuffer.cols = w ∧ s.grayBuffer.rows = h) ∧
      s1.grayBuffer.cols = w ∧ s1.grayBuffer.rows = h ∧
      s1.grayBuffer.data.length = w * h) ∧
    (∃ buf s1, processCanny s frame w h = some (buf, s1) ∧
      (s1.grayBuffer.gen = s.grayBuffer.gen ↔
        s.grayBuffer.cols = w ∧ s.grayBuffer.rows = h) ∧
      (s1.blurredBuffer.gen = s.blurredBuffer.gen ↔
        s.blurredBuffer.cols = w ∧ s.blurredBuffer.rows = h) ∧
      (s1.edgesBuffer.gen = s.edgesBuffer.gen ↔
        s.edgesBuffer.cols = w ∧ s.edgesBuffer.rows = h) ∧
      s1.grayBuffer.cols = w ∧ s1.grayBuffer.rows = h ∧
      s1.grayBuffer.data.length = w * h ∧
      s1.blurredBuffer.cols = w ∧ s1.blurredBuffer.rows = h ∧
      s1.blurredBuffer.data.length = w * h ∧
      s1.edgesBuffer.cols = w ∧ s1.edgesBuffer.rows = h ∧
      s1.edgesBuffer.data.length = w * h) := by
  obtain ⟨hWF1, hWF2, hWF3⟩ := hWF
  constructor
  · by_cases hg : s.grayBuffer.cols = w ∧ s.grayBuffer.rows = h
    · rw [processGrayscale, yuv420ToGray_reuse s frame w h hlen hg.1 hg.2]
      exact ⟨_, _, rfl, iff_of_true rfl hg, hg.1, hg.2,
        by simp [List.length_take, Nat.min_eq_left hlen]⟩
    · rw [processGrayscale, yuv420ToGray_realloc s frame w h hlen (mismatchOfNot _ _ _ _ hg)]
      refine ⟨_, _, rfl, iff_of_false (by dsimp only; omega) hg, rfl, rfl,
        by simp [List.length_take, Nat.min_eq_left hlen]⟩
  · obtain ⟨buf, s1, heq, hdata, hbc, hbr, hedges, ht1, ht2, hap,
      hgc, hgr, hgd, hlc, hlr, hld, hgen⟩ := processCanny_spec s frame w h hlen
    obtain ⟨hWFs1, hiffG, hiffB, hiffE⟩ := hgen ⟨hWF1, hWF2, hWF3⟩
    refine ⟨buf, s1, heq, hiffG, hiffB, hiffE, hgc, hgr, ?_, hlc, hlr, ?_, ?_, ?_, ?_⟩
    · rw [hgd]; simp [List.length_take, Nat.min_eq_left hlen]
    · rw [hld, blurModel_length]
    · rw [hedges, hbc]
    · rw [hedges, hbr]
    · rw [hedges, hdata, cannyModel_length]

/-- Witness for C2: the first 2x2 call on a fresh processor. -/
theorem buffer_realloc_iff_witness :
    genWF initState ∧ 2 * 2 ≤ (List.replicate 6 (7 : Byte)).length ∧
    ((∃ buf s1, processGrayscale initState (List.replicate 6 7) 2 2 = some (buf, s1) ∧
      (s1.grayBuffer.gen = initState.grayBuffer.gen ↔
        initState.grayBuffer.cols = 2 ∧ initState.grayBuffer.rows = 2) ∧
      s1.grayBuffer.cols = 2 ∧ s1.grayBuffer.rows = 2 ∧
      s1.grayBuffer.data.length = 2 * 2) ∧
    (∃ buf s1, processCanny initState (List.replicate 6 7) 2 2 = some (buf, s1) ∧
      (s1.grayBuffer.gen = initState.grayBuffer.gen ↔
        initState.grayBuffer.cols = 2 ∧ initState.grayBuffer.rows = 2) ∧
      (s1.blurredBuffer.gen = initState.blurredBuffer.gen ↔
        initState.blurredBuffer.cols = 2 ∧ initState.blurredBuffer.rows = 2) ∧
      (s1.edgesBuffer.gen = initState.edgesBuffer.gen ↔
        initState.edgesBuffer.cols = 2 ∧ initState.edgesBuffer.rows = 2) ∧
      s1.grayBuffer.cols = 2 ∧ s1.grayBuffer.rows = 2 ∧
      s1.grayBuffer.data.length = 2 * 2 ∧
      s1.blurredBuffer.cols = 2 ∧ s1.blurredBuffer.rows = 2 ∧
      s1.blurredBuffer.data.length = 2 * 2 ∧
      s1.edgesBuffer.cols = 2 ∧ s1.edgesBuffer.rows = 2 ∧
      s1.edgesBuffer.data.length = 2 * 2)) :=
  ⟨⟨by decide, by decide, by decide⟩, by decide,
    buffer_realloc_iff initState (List.replicate 6 7) 2 2
      ⟨by decide, by decide, by decide⟩ (by decide)⟩

/-! ### C5 -/

theorem cannyModel_mem (w h : Nat) (img : List Byte) (t1 t2 : Rat) :
    ∀ b ∈ cannyModel w h img t1 t2, b = 0 ∨ b = 255 := by
  intro b hb
  unfold cannyModel at hb
  rw [List.mem_map] at hb
  obtain ⟨p, _, hp⟩ := hb
  rw [← hp]
  cases hc : (edgeSet w h img t1 t2).getD p false <;> simp [hc]

/-- C5: for any in-bounds frame, `toEdges` (`processCanny`) yields a
buffer of exactly `width*height` bytes, each of which is 0 or 255. -/
theorem edges_binary (s : EPState) (frame : List Byte) (w h : Nat)
    (hlen : w * h ≤ frame.length) :
    ∃ buf s1, processCanny s frame w h = some (buf, s1) ∧
      buf.data.length = w * h ∧ ∀ b ∈ buf.data, b = 0 ∨ b = 255 := by
  obtain ⟨buf, s1, heq, hdata, _⟩ := processCanny_spec s frame w h hlen
  refine ⟨buf, s1, heq, ?_, ?_⟩
  · rw [hdata, cannyModel_length]
  · rw [hdata]
    exact cannyModel_mem _ _ _ _ _

/-- Witness for C5: the 4x4 all-zero YUV420 frame of the spec. -/
theorem edges_binary_witness :
    4 * 4 ≤ (List.replicate 24 (0 : Byte)).length ∧
    (∃ buf s1, processCanny initState (List.replicate 24 0) 4 4 = some (buf, s1) ∧
      buf.data.length = 4 * 4 ∧ ∀ b ∈ buf.data, b = 0 ∨ b = 255) :=
  ⟨by decide, edges_binary initState (List.replicate 24 0) 4 4 (by decide)⟩

/-! ### C6 -/

/-- C6: with unchanged thresholds, a second `toEdges` call on the same
frame and dimensions produces byte-identical output (the thresholds are
untouched by the call, so every repetition yields the same bytes). -/
theorem canny_deterministic (s : EPState) (frame : List Byte) (w h : Nat)
    (hlen : w * h ≤ frame.length) :
    ∃ b1 s1 b2 s2,
      processCanny s frame w h = some (b1, s1) ∧
      processCanny s1 frame w h = some (b2, s2) ∧
      b2.data = b1.data ∧
      s1.cannyThreshold1 = s.cannyThreshold1 ∧
      s1.cannyThreshold2 = s.cannyThreshold2 := by
  obtain ⟨b1, s1, heq1, hd1, _, _, _, ht1, ht2, _⟩ := processCanny_spec s frame w h hlen
  obtain ⟨b2, s2, heq2, hd2, _⟩ := processCanny_spec s1 frame w h hlen
  exact ⟨b1, s1, b2, s2, heq1, heq2, by rw [hd1, hd2, ht1, ht2], ht1, ht2⟩

/-- Witness for C6 on a concrete 3x3 frame. -/
theorem canny_deterministic_witness :
    3 * 3 ≤ ([0, 9, 2, 250, 4, 5, 6, 7, 8, 9, 10, 11, 12, 13] : List Byte).length ∧
    (∃ b1 s1 b2 s2,
      processCanny initState [0, 9, 2, 250, 4, 5, 6, 7, 8, 9, 10, 11, 12, 13] 3 3 =
        some (b1, s1) ∧
      processCanny s1 [0, 9, 2, 250, 4, 5, 6, 7, 8, 9, 10, 11, 12, 13] 3 3 =
        some (b2, s2) ∧
      b2.data = b1.data ∧
      s1.cannyThreshold1 = initState.cannyThreshold1 ∧
      s1.cannyThreshold2 = initState.cannyThreshold2) :=
  ⟨by decide,
    canny_deterministic initState [0, 9, 2, 250, 4, 5, 6, 7, 8, 9, 10, 11, 12, 13] 3 3
      (by decide)⟩



/-! ### C3 -/

/-- C3: a nonpositive width or height makes both JNI entry points return
null (no result), leaving the process alive — the guard fires before any
processing. -/
theorem invalid_dims_null (g : Option EPState) (frame : List Byte) (w h : Int)
    (hbad : w ≤ 0 ∨ h ≤ 0) :
    (processFrameCanny g frame w h).1 = JniResult.nullResult ∧
    (processFrameGrayscale g frame w h).1 = JniResult.nullResult := by
  constructor <;> simp [processFrameCanny, processFrameGrayscale, hbad]

/-- Witness for C3 at width 0 and height -1. -/
theorem invalid_dims_null_witness :
    ((0 : Int) ≤ 0 ∨ (-1 : Int) ≤ 0) ∧
    ((processFrameCanny none [1, 2, 3] 0 (-1)).1 = JniResult.nullResult ∧
      (processFrameGrayscale none [1, 2, 3] 0 (-1)).1 = JniResult.nullResult) :=
  ⟨by decide, invalid_dims_null none [1, 2, 3] 0 (-1) (by decide)⟩

/-! ### C4 -/

theorem processCanny_short_none (s : EPState) (f : List Byte) (w h : Nat)
    (hshort : f.length < w * h) :
    processCanny s f w h = none := by
  simp [processCanny, yuv420ToGray_none s f w h hshort]

/-- C4 counterexample: a 3-byte frame with requested dimensions 2x2 (four
bytes needed) is not rejected as InvalidDimensions — the entry point does
not return null; the `memcpy` reads out of bounds instead. -/
theorem short_frame_not_null_cex :
    (processFrameCanny none [0, 0, 0] 2 2).1 ≠ JniResult.nullResult ∧
    (processFrameCanny none [0, 0, 0] 2 2).1 = JniResult.undefinedBehavior ∧
    (processFrameGrayscale none [0, 0, 0] 2 2).1 ≠ JniResult.nullResult ∧
    (processFrameGrayscale none [0, 0, 0] 2 2).1 = JniResult.undefinedBehavior := by
  decide

/-- C4 amended: only nonpositive dimensions are validated.  A frame whose
byte length is insufficient for `width*height` is not detected: with
positive dimensions both entry points run into the out-of-bounds
`memcpy` (undefined behavior) rather than classifying the call as
InvalidDimensions and returning null. -/
theorem short_frame_undefined (g : Option EPState) (frame : List Byte) (w h : Int)
    (hw : 0 < w) (hh : 0 < h)
    (hshort : frame.length < w.toNat * h.toNat) :
    (processFrameCanny g frame w h).1 = JniResult.undefinedBehavior ∧
    (processFrameGrayscale g frame w h).1 = JniResult.undefinedBehavior := by
  have hnb : ¬(w ≤ 0 ∨ h ≤ 0) := by omega
  constructor
  · simp [processFrameCanny, hnb,
      processCanny_short_none (ensureEdgeProcessorInitialized g) frame w.toNat h.toNat hshort]
  · simp [processFrameGrayscale, hnb, processGrayscale,
      yuv420ToGray_none (ensureEdgeProcessorInitialized g) frame w.toNat h.toNat hshort]

/-- Witness for the amended C4 on a 3-byte frame at 2x2. -/
theorem short_frame_undefined_witness :
    (0 : Int) < 2 ∧ (0 : Int) < 2 ∧
    ([0, 0, 0] : List Byte).length < (2 : Int).toNat * (2 : Int).toNat ∧
    ((processFrameCanny none [0, 0, 0] 2 2).1 = JniResult.undefinedBehavior ∧
      (processFrameGrayscale none [0, 0, 0] 2 2).1 = JniResult.undefinedBehavior) :=
  ⟨by decide, by decide, by decide,
    short_frame_undefined none [0, 0, 0] 2 2 (by decide) (by decide) (by decide)⟩

/-! ### C9 -/

/-- C9: `processFrameToBitmap` always returns an absent result and leaves
the processor untouched — it is an unimplemented stub. -/
theorem bitmap_stub_absent (g : Option EPState) (frame : List Byte)
    (w h processingType : Int) :
    processFrameToBitmap g frame w h processingType = (none, g) :=
  rfl


/-! ### C7 -/

theorem hystStep_getD (w h : Nat) (cand cur : List Bool) (p : Nat) :
    (hystStep w h cand cur).getD p false =
      if p < w * h then
        cur.getD p false || (cand.getD p false && (nbrs w h p).any fun q => cur.getD q false)
      else false := by
  rcases Nat.lt_or_ge p (w * h) with hp | hp
  · rw [if_pos hp]
    unfold hystStep
    rw [List.getD_eq_getElem?_getD, List.getElem?_map, List.getElem?_range hp]
    rfl
  · rw [if_neg (Nat.not_lt.mpr hp)]
    unfold hystStep
    rw [List.getD_eq_getElem?_getD, List.getElem?_eq_none]
    · rfl
    · simpa using hp

theorem bleq_hystStep {w h : Nat} {c c2 u u2 : List Bool}
    (hc : bleq c2 c) (hu : bleq u2 u) :
    bleq (hystStep w h c2 u2) (hystStep w h c u) := by
  intro p hp
  rw [hystStep_getD] at hp ⊢
  by_cases hpn : p < w * h
  · rw [if_pos hpn] at hp ⊢
    rw [Bool.or_eq_true] at hp ⊢
    rcases hp with hp | hp
    · exact Or.inl (hu p hp)
    · rw [Bool.and_eq_true] at hp
      obtain ⟨hpc, hpa⟩ := hp
      refine Or.inr ?_
      rw [Bool.and_eq_true]
      refine ⟨hc p hpc, ?_⟩
      rw [List.any_eq_true] at hpa ⊢
      obtain ⟨q, hq, hq2⟩ := hpa
      exact ⟨q, hq, hu q hq2⟩
  · rw [if_neg hpn] at hp
    exact absurd hp (by simp)

theorem bleq_hystAux {w h : Nat} {c c2 : List Bool} (hc : bleq c2 c) :
    ∀ (n : Nat) {u u2 : List Bool}, bleq u2 u →
      bleq (hystAux w h c2 n u2) (hystAux w h c n u) := by
  intro n
  induction n with
  | zero => intro u u2 hu; simpa [hystAux] using hu
  | succ n ih => intro u u2 hu; simp only [hystAux]; exact ih (bleq_hystStep hc hu)

theorem bleq_threshList (l : List Nat) {t t2 : Rat} (ht : t ≤ t2) :
    bleq (threshList l t2) (threshList l t) := by
  induction l with
  | nil => intro p hp; simp [threshList] at hp
  | cons a l ih =>
    intro p hp
    cases p with
    | zero =>
      simp only [threshList, List.map_cons, List.getD_cons_zero, decide_eq_true_iff] at hp ⊢
      exact lt_of_le_of_lt ht hp
    | succ p =>
      simp only [threshList, List.map_cons, List.getD_cons_succ] at hp ⊢
      exact ih p hp

theorem count255_le_of_bleq {e e2 : List Bool} (he : bleq e2 e) :
    ∀ l : List Nat,
      count255 (l.map fun p => if e2.getD p false then 255 else 0) ≤
        count255 (l.map fun p => if e.getD p false then 255 else 0) := by
  intro l
  induction l with
  | nil => simp
  | cons a l ih =>
    simp only [List.map_cons]
    cases h2 : e2.getD a false with
    | false =>
      cases h1 : e.getD a false with
      | false => simp [count255, List.count_cons] at ih ⊢; omega
      | true => simp [count255, List.count_cons] at ih ⊢; omega
    | true =>
      have h1 : e.getD a false = true := he a h2
      rw [h1]
      simp [count255, List.count_cons] at ih ⊢; omega

theorem cannyModel_count_mono (w h : Nat) (img : List Byte) {t1 t2 u1 u2 : Rat}
    (h1 : t1 ≤ u1) (h2 : t2 ≤ u2) :
    count255 (cannyModel w h img u1 u2) ≤ count255 (cannyModel w h img t1 t2) := by
  unfold cannyModel edgeSet
  exact count255_le_of_bleq
    (bleq_hystAux (bleq_threshList _ h1) (w * h) (bleq_threshList _ h2)) (List.range (w * h))

/-- C7: raising both Canny thresholds via `setCannyThresholds` never
increases the number of 255 (edge) bytes `toEdges` produces on the same
frame: the strong and candidate pixel sets both shrink, so the
propagated edge set shrinks pointwise. -/
theorem threshold_monotone (s : EPState) (frame : List Byte) (w h : Nat) (u1 u2 : Rat)
    (h1 : s.cannyThreshold1 ≤ u1) (h2 : s.cannyThreshold2 ≤ u2)
    (hlen : w * h ≤ frame.length) :
    ∃ b1 s1 b2 s2,
      processCanny s frame w h = some (b1, s1) ∧
      processCanny (setCannyThresholds s u1 u2) frame w h = some (b2, s2) ∧
      count255 b2.data ≤ count255 b1.data := by
  obtain ⟨b1, s1, heq1, hd1, _⟩ := processCanny_spec s frame w h hlen
  obtain ⟨b2, s2, heq2, hd2, _⟩ :=
    processCanny_spec (setCannyThresholds s u1 u2) frame w h hlen
  refine ⟨b1, s1, b2, s2, heq1, heq2, ?_⟩
  rw [hd1, hd2]
  exact cannyModel_count_mono w h _ h1 h2

/-- Witness for C7: thresholds 50/150 raised to 60/160 on a 4x4 frame
with a vertical step edge. -/
theorem threshold_monotone_witness :
    initState.cannyThreshold1 ≤ (60 : Rat) ∧ initState.cannyThreshold2 ≤ (160 : Rat) ∧
    4 * 4 ≤ ([0, 0, 200, 200, 0, 0, 200, 200, 0, 0, 200, 200, 0, 0, 200, 200] :
      List Byte).length ∧
    (∃ b1 s1 b2 s2,
      processCanny initState
          [0, 0, 200, 200, 0, 0, 200, 200, 0, 0, 200, 200, 0, 0, 200, 200] 4 4 =
        some (b1, s1) ∧
      processCanny (setCannyThresholds initState 60 160)
          [0, 0, 200, 200, 0, 0, 200, 200, 0, 0, 200, 200, 0, 0, 200, 200] 4 4 =
        some (b2, s2) ∧
      count255 b2.data ≤ count255 b1.data) :=
  ⟨by decide, by decide, by decide,
    threshold_monotone initState
      [0, 0, 200, 200, 0, 0, 200, 200, 0, 0, 200, 200, 0, 0, 200, 200] 4 4 60 160
      (by decide) (by decide) (by decide)⟩


/-! ### C8 -/

theorem take_mul_flatten :
    ∀ (r : Nat) (d : List Byte) (c : Nat),
      d.take (r * c) = ((List.range r).map fun i => (d.drop (i * c)).take c).flatten := by
  intro r
  induction r with
  | zero => intro d c; simp
  | succ r ih =>
    intro d c
    have h1 : (r + 1) * c = c + r * c := by ring
    rw [h1, List.take_add, List.range_succ_eq_map, List.map_cons, List.flatten_cons,
      Nat.zero_mul, List.drop_zero, List.map_map]
    congr 1
    rw [ih (d.drop c) c]
    congr 1
    apply List.map_congr_left
    intro i _
    simp only [Function.comp]
    rw [List.drop_drop]
    congr 2
    rw [Nat.succ_mul]
    exact Nat.add_comm c (i * c)

theorem foldl_append_flatten (f : Nat → List Byte) :
    ∀ (l : List Nat) (acc : List Byte),
      l.foldl (fun a i => a ++ f i) acc = acc ++ (l.map f).flatten := by
  intro l
  induction l with
  | nil => intro acc; simp
  | cons a l ih => intro acc; simp [ih, List.append_assoc]

/-- C8: `matToByteArray` returns the rows of the matrix concatenated in
row-major order, both when the backing storage is contiguous
(`isContinuous`, wholesale copy) and when it is strided (row-by-row
copy). -/
theorem matToByteArray_rowmajor (m : MatView) :
    matToByteArrayV m = ((List.range m.rows).map (fun i => m.row i)).flatten := by
  unfold matToByteArrayV
  by_cases hc : m.isContinuous
  · rw [if_pos hc]
    unfold MatView.isContinuous at hc
    rw [decide_eq_true_iff] at hc
    rcases hc with hc | hc
    · obtain h0 | h1 := Nat.le_one_iff_eq_zero_or_eq_one.mp hc
      · rw [h0]; simp
      · rw [h1]; simp [MatView.row, List.range_succ]
    · simp only [MatView.row, hc]
      exact take_mul_flatten m.rows m.data m.cols
  · rw [if_neg hc]
    rw [foldl_append_flatten]
    simp

/-! ### C10 -/

/-- C10: a fresh processor has thresholds 50/150, aperture size 3 and
zero last-seen dimensions; its first `toGray` and `toEdges` calls (with
positive dimensions) allocate fresh backing storage for every buffer, and
edge detection before any `setCannyThresholds` call uses thresholds
50/150. -/
theorem init_state_defaults (frame : List Byte) (w h : Nat)
    (hw : 0 < w) (hh : 0 < h) (hlen : w * h ≤ frame.length) :
    initState.cannyThreshold1 = 50 ∧ initState.cannyThreshold2 = 150 ∧
    initState.cannyApertureSize = 3 ∧
    initState.lastWidth = 0 ∧ initState.lastHeight = 0 ∧
    (∃ buf s1, processGrayscale initState frame w h = some (buf, s1) ∧
      s1.grayBuffer.gen ≠ initState.grayBuffer.gen) ∧
    (∃ buf s1, processCanny initState frame w h = some (buf, s1) ∧
      s1.grayBuffer.gen ≠ initState.grayBuffer.gen ∧
      s1.blurredBuffer.gen ≠ initState.blurredBuffer.gen ∧
      s1.edgesBuffer.gen ≠ initState.edgesBuffer.gen ∧
      buf.data = cannyModel w h (blurModel w h (List.take (w * h) frame)) 50 150) := by
  refine ⟨rfl, rfl, rfl, rfl, rfl, ?_, ?_⟩
  · have hdim : initState.grayBuffer.cols ≠ w ∨ initState.grayBuffer.rows ≠ h := by
      left
      show (0 : Nat) ≠ w
      omega
    rw [processGrayscale, yuv420ToGray_realloc initState frame w h hlen hdim]
    refine ⟨_, _, rfl, ?_⟩
    show initState.nextGen ≠ initState.grayBuffer.gen
    decide
  · obtain ⟨buf, s1, heq, hdata, _, _, _, _, _, _, _, _, _, _, _, _, hgen⟩ :=
      processCanny_spec initState frame w h hlen
    obtain ⟨_, hiffG, hiffB, hiffE⟩ := hgen ⟨by decide, by decide, by decide⟩
    have h0g : initState.grayBuffer.cols = 0 := rfl
    have h0b : initState.blurredBuffer.cols = 0 := rfl
    have h0e : initState.edgesBuffer.cols = 0 := rfl
    refine ⟨buf, s1, heq, ?_, ?_, ?_, hdata⟩
    · intro hgeq
      obtain ⟨hcw, hrh⟩ := hiffG.mp hgeq
      omega
    · intro hgeq
      obtain ⟨hcw, hrh⟩ := hiffB.mp hgeq
      omega
    · intro hgeq
      obtain ⟨hcw, hrh⟩ := hiffE.mp hgeq
      omega

/-- Witness for C10: the first 2x2 call on a 4-byte frame. -/
theorem init_state_defaults_witness :
    0 < 2 ∧ 0 < 2 ∧ 2 * 2 ≤ (List.replicate 4 (0 : Byte)).length ∧
    (initState.cannyThreshold1 = 50 ∧ initState.cannyThreshold2 = 150 ∧
    initState.cannyApertureSize = 3 ∧
    initState.lastWidth = 0 ∧ initState.lastHeight = 0 ∧
    (∃ buf s1, processGrayscale initState (List.replicate 4 0) 2 2 = some (buf, s1) ∧
      s1.grayBuffer.gen ≠ initState.grayBuffer.gen) ∧
    (∃ buf s1, processCanny initState (List.replicate 4 0) 2 2 = some (buf, s1) ∧
      s1.grayBuffer.gen ≠ initState.grayBuffer.gen ∧
      s1.blurredBuffer.gen ≠ initState.blurredBuffer.gen ∧
      s1.edgesBuffer.gen ≠ initState.edgesBuffer.gen ∧
      buf.data = cannyModel 2 2 (blurModel 2 2 (List.take (2 * 2) (List.replicate 4 0)))
        50 150)) :=
  ⟨by decide, by decide, by decide,
    init_state_defaults (List.replicate 4 0) 2 2 (by decide) (by decide) (by decide)⟩

end EdgeVision
